import Mathlib

/-!
Verification development for the `sumppi` podcast-feed generator.

The Go sources are shallowly embedded:

* `GoTime` models `time.Time` as an absolute instant (seconds since the Unix
  epoch plus nanoseconds) together with the fixed zone offset that
  `time.Parse` records; `GoTime.after` is `Time.After`, `GoTime.add` is
  `Time.Add`.
* `parseRFC3339` models `time.Parse(time.RFC3339, s)`, which in Go accepts
  exactly the strict RFC 3339 grammar (4-digit year, '-' and ':' separators,
  'T', optional fractional seconds, and a zone that is either 'Z' or
  `±hh:mm`), with the field ranges Go checks (month 1..12, day within the
  month, hour ≤ 23, minute ≤ 59, second ≤ 59, zone hour ≤ 23, zone
  minute ≤ 59).
* Calendar arithmetic (`daysFromCivil`, `civilFromDays`) converts between
  a proleptic-Gregorian civil date and a day count from 1970-01-01, matching
  Go's internal absolute-time arithmetic; `formatJan2` is
  `Time.Format("Jan 2, 2006")` and `formatRFC1123Z` is
  `Time.Format(time.RFC1123Z)`, both rendered in the time's own offset as Go
  does.
* Go `int` is embedded as `Int`, Go integer division and remainder
  (truncation toward zero) as `Int.tdiv` / `Int.tmod`, and Go string
  comparison (bytewise on UTF-8) as Lean's `String` order (lexicographic on
  code points, which agrees with bytewise UTF-8 order).
* `time.Now()` is an explicit `now : GoTime` parameter of every function
  that reads the wall clock.
-/

deriving instance DecidableEq for Except

/-- One Go `time.Time` value: `sec`/`nsec` give the absolute instant
(seconds and nanoseconds since the Unix epoch), `offset` the fixed zone
offset in seconds east of UTC that formatting uses. -/
structure GoTime where
  sec : Int
  nsec : Nat
  offset : Int
  deriving Repr, DecidableEq

/-- Go `t.After(u)`: the instant of `t` is strictly later than that of `u`
(zone offsets do not participate). -/
def GoTime.after (t u : GoTime) : Bool :=
  decide (u.sec < t.sec ∨ (u.sec = t.sec ∧ u.nsec < t.nsec))

/-- Go `t.Add(d)` for a duration of `d` whole seconds. -/
def GoTime.add (t : GoTime) (d : Int) : GoTime :=
  { t with sec := t.sec + d }

/-- Days from 1970-01-01 to the civil date `y-m-d` in the proleptic
Gregorian calendar (Euclidean division makes the usual era computation
uniform for all years). -/
def daysFromCivil (y m d : Int) : Int :=
  let y' := if m ≤ 2 then y - 1 else y
  let era := Int.ediv y' 400
  let yoe := y' - era * 400
  let mp := m + (if 2 < m then -3 else 9)
  let doy := Int.ediv (153 * mp + 2) 5 + d - 1
  let doe := yoe * 365 + Int.ediv yoe 4 - Int.ediv yoe 100 + doy
  era * 146097 + doe - 719468

/-- Civil date `(y, m, d)` of the day `z` days after 1970-01-01, inverse of
`daysFromCivil`. -/
def civilFromDays (z : Int) : Int × Int × Int :=
  let z' := z + 719468
  let era := Int.ediv z' 146097
  let doe := z' - era * 146097
  let yoe := Int.ediv (doe - Int.ediv doe 1460 + Int.ediv doe 36524 - Int.ediv doe 146096) 365
  let y := yoe + era * 400
  let doy := doe - (365 * yoe + Int.ediv yoe 4 - Int.ediv yoe 100)
  let mp := Int.ediv (5 * doy + 2) 153
  let d := doy - Int.ediv (153 * mp + 2) 5 + 1
  let m := mp + (if mp < 10 then 3 else -9)
  (if m ≤ 2 then y + 1 else y, m, d)

/-- Go's `Month.String` abbreviations as used by the `Jan` layout element. -/
def monthAbbrev (m : Int) : String :=
  if m = 1 then "Jan" else if m = 2 then "Feb" else if m = 3 then "Mar"
  else if m = 4 then "Apr" else if m = 5 then "May" else if m = 6 then "Jun"
  else if m = 7 then "Jul" else if m = 8 then "Aug" else if m = 9 then "Sep"
  else if m = 10 then "Oct" else if m = 11 then "Nov" else if m = 12 then "Dec"
  else "%!Month(" ++ toString m ++ ")"

/-- Go's weekday abbreviations as used by the `Mon` layout element;
`w = 0` is Sunday. -/
def weekdayAbbrev (w : Int) : String :=
  if w = 0 then "Sun" else if w = 1 then "Mon" else if w = 2 then "Tue"
  else if w = 3 then "Wed" else if w = 4 then "Thu" else if w = 5 then "Fri"
  else "Sat"

/-- Decimal rendering of `n` left-padded with zeros to `w` digits, as Go's
`appendInt` pads layout fields. -/
def padNat (w n : Nat) : String :=
  let s := toString n
  (String.mk (List.replicate (w - s.length) '0')) ++ s

/-- Go `fmt` / layout rendering of an integer zero-padded to width 2: the
sign is emitted first and the digits are padded (`5 ↦ "05"`, `-5 ↦ "-5"`). -/
def goPad2 (n : Int) : String :=
  if 0 ≤ n ∧ n < 10 then "0" ++ toString n else toString n

/-- The `2006` layout element: the year zero-padded to four digits, with a
leading sign for negative years. -/
def goYear (y : Int) : String :=
  (if y < 0 then "-" else "") ++ padNat 4 y.natAbs

/-- Local civil clock of `t`: days from the epoch and the second of the day,
in `t`'s own zone offset. -/
def GoTime.civil (t : GoTime) : Int × Int :=
  let local_ := t.sec + t.offset
  (Int.ediv local_ 86400, Int.emod local_ 86400)

/-- Go `t.Format("Jan 2, 2006")`: abbreviated month, unpadded day,
four-digit year, rendered in `t`'s zone offset. -/
def formatJan2 (t : GoTime) : String :=
  let (days, _) := t.civil
  let (y, m, d) := civilFromDays days
  monthAbbrev m ++ " " ++ toString d ++ ", " ++ goYear y

/-- Go `t.Format(time.RFC1123Z)`, layout `Mon, 02 Jan 2006 15:04:05 -0700`:
weekday and month abbreviated, day/hour/minute/second zero-padded to two
digits, numeric zone offset, all rendered in `t`'s zone offset. -/
def formatRFC1123Z (t : GoTime) : String :=
  let (days, remDay) := t.civil
  let (y, m, d) := civilFromDays days
  let wd := Int.emod (days + 4) 7
  let zoneMin := t.offset.natAbs / 60
  weekdayAbbrev wd ++ ", " ++ goPad2 d ++ " " ++ monthAbbrev m ++ " " ++
    goYear y ++ " " ++ goPad2 (Int.ediv remDay 3600) ++ ":" ++
    goPad2 (Int.emod (Int.ediv remDay 60) 60) ++ ":" ++
    goPad2 (Int.emod remDay 60) ++ " " ++
    (if t.offset < 0 then "-" else "+") ++ padNat 2 (zoneMin / 60) ++ padNat 2 (zoneMin % 60)

/-- ASCII digit test, Go's `isDigit`. -/
def isDigitCh (c : Char) : Bool := '0' ≤ c && c ≤ '9'

/-- Numeric value of an ASCII digit. -/
def digitVal (c : Char) : Nat := c.toNat - '0'.toNat

/-- Value of a two-digit field. -/
def num2 (a b : Char) : Nat := digitVal a * 10 + digitVal b

/-- Value of a four-digit field. -/
def num4 (a b c d : Char) : Nat :=
  ((digitVal a * 10 + digitVal b) * 10 + digitVal c) * 10 + digitVal d

/-- Go `isLeap`. -/
def isLeapYear (y : Nat) : Bool :=
  y % 4 == 0 && (y % 100 != 0 || y % 400 == 0)

/-- Go `daysIn(m, year)`: the number of days of month `m` in `year`. -/
def daysInMonth (m y : Nat) : Nat :=
  if m = 2 then (if isLeapYear y then 29 else 28)
  else if m = 4 ∨ m = 6 ∨ m = 9 ∨ m = 11 then 30
  else 31

/-- Maximal run of ASCII digits at the head of the list, with the rest. -/
def takeDigits : List Char → List Char × List Char
  | [] => ([], [])
  | c :: rest =>
    if isDigitCh c then
      let (ds, r) := takeDigits rest
      (c :: ds, r)
    else ([], c :: rest)

/-- Go `parseNanoseconds` on a fractional-second digit run: the first nine
digits, right-padded with zeros to nanosecond precision (further digits are
discarded). -/
def nsecOfFrac (ds : List Char) : Nat :=
  let ds9 := ds.take 9
  (ds9.foldl (fun a c => a * 10 + digitVal c) 0) * 10 ^ (9 - ds9.length)

/-- The zone suffix of Go's strict RFC 3339 grammar: exactly `Z`, or exactly
`±hh:mm` with zone hour ≤ 23 and zone minute ≤ 59; the offset in seconds. -/
def parseZone : List Char → Option Int
  | ['Z'] => some 0
  | [sg, h1, h2, ':', m1, m2] =>
    if (sg = '+' ∨ sg = '-') ∧ isDigitCh h1 ∧ isDigitCh h2 ∧ isDigitCh m1 ∧ isDigitCh m2 then
      let hh := num2 h1 h2
      let mm := num2 m1 m2
      if hh ≤ 23 ∧ mm ≤ 59 then
        let off : Int := (hh * 3600 + mm * 60 : Nat)
        some (if sg = '-' then -off else off)
      else none
    else none
  | _ => none

/-- Go `time.Parse(time.RFC3339, s)` (the strict `parseRFC3339` grammar that
layout `time.RFC3339` admits since it is checked strictly): `none` models a
parse error. A successful parse yields the instant of the written civil time
minus the zone offset, keeping the offset for formatting, exactly as Go
does. -/
def parseRFC3339 (s : String) : Option GoTime :=
  match s.data with
  | y1 :: y2 :: y3 :: y4 :: '-' :: mo1 :: mo2 :: '-' :: d1 :: d2 :: 'T' ::
      h1 :: h2 :: ':' :: mi1 :: mi2 :: ':' :: s1 :: s2 :: rest =>
    if isDigitCh y1 ∧ isDigitCh y2 ∧ isDigitCh y3 ∧ isDigitCh y4 ∧
        isDigitCh mo1 ∧ isDigitCh mo2 ∧ isDigitCh d1 ∧ isDigitCh d2 ∧
        isDigitCh h1 ∧ isDigitCh h2 ∧ isDigitCh mi1 ∧ isDigitCh mi2 ∧
        isDigitCh s1 ∧ isDigitCh s2 then
      let year := num4 y1 y2 y3 y4
      let month := num2 mo1 mo2
      let day := num2 d1 d2
      let hour := num2 h1 h2
      let minute := num2 mi1 mi2
      let second := num2 s1 s2
      if 1 ≤ month ∧ month ≤ 12 ∧ 1 ≤ day ∧ day ≤ daysInMonth month year ∧
          hour ≤ 23 ∧ minute ≤ 59 ∧ second ≤ 59 then
        let fracRest : Nat × List Char :=
          match rest with
          | '.' :: c :: _ =>
            if isDigitCh c then
              let (ds, r) := takeDigits (rest.drop 1)
              (nsecOfFrac ds, r)
            else (0, rest)
          | _ => (0, rest)
        match parseZone fracRest.2 with
        | none => none
        | some off =>
          some { sec := daysFromCivil year month day * 86400 +
                   (hour * 3600 + minute * 60 + second : Nat) - off,
                 nsec := fracRest.1, offset := off }
      else none
    else none
  | _ => none

/-!
Data model (`part_002`, also duplicated in `main.go`): the structs decoded
from the upstream JSON API. Go `int` is `Int`, `*string` is `Option String`,
`map[string]string` is a `List (String × String)` of its entries (no claim
touches it). The Go field `Type` is renamed `type_` (`Type` is reserved in
Lean); every other field keeps its source name.
-/

/-- Go `AudioSample`. -/
structure AudioSample where
  AudioURL : String
  AudioDuration : Int
  AudioLength : Int
  deriving Repr, DecidableEq

/-- Go `AudioSlice`. -/
structure AudioSlice where
  URL : String
  Start : Int
  End_ : Int
  deriving Repr, DecidableEq

/-- Go `AvailabilityPeriod`. -/
structure AvailabilityPeriod where
  Product : Option String
  type_ : String
  StartDate : String
  EndDate : String
  deriving Repr, DecidableEq

/-- Go `Rankings`. -/
structure Rankings where
  Daily : Int
  Weekly : Int
  Monthly : Int
  deriving Repr, DecidableEq

/-- Go `Episode`. -/
structure Episode where
  SourceType : String
  GUID : String
  SeriesTitle : String
  SeriesGUID : String
  Author : String
  PhotoAuthor : String
  OriginalArticleURL : String
  Title : String
  Description : String
  HTMLDescription : Option String
  PublicationDate : String
  RSSGUID : String
  AudioURL : String
  AudioDuration : Int
  AudioLength : Int
  AudioSample : AudioSample
  AudioPkgs : List (String × String)
  LastModified : String
  AudioSlices : List AudioSlice
  SeriesTags : List String
  Tags : List String
  AvailabilityPeriods : List AvailabilityPeriod
  Rankings : Rankings
  AnalyticsData : Option String
  AdTags : Option String
  CoverURL : String
  SquareCoverURL : Option String
  SquarePhotoAuthor : Option String
  H : Option String
  Kind : String
  deriving Repr, DecidableEq

/-- Go `SeriesData`. -/
structure SeriesData where
  GUID : String
  LastModified : String
  RSSFeedURL : String
  Title : String
  Author : String
  Description : String
  HTMLDescription : Option String
  Link : String
  PublicationDate : String
  Copyright : String
  Publisher : String
  Tags : List String
  Categories : List String
  Episodes : List Episode
  Rankings : Rankings
  CoverURL : String
  deriving Repr, DecidableEq

/-!
RSS output model (`part_000`): the XML-tagged structs that `generateRSSFeed`
fills and `xml.MarshalIndent` serializes. The serialization of this fixed
struct shape is a total, injective, deterministic standard-library function,
so the generated document is modelled by the `RSSFeed` value itself;
`xml.MarshalIndent`'s error branch (`part_000` lines 94–97) cannot trigger
on it.
-/

/-- Go `Image`. -/
structure Image where
  Href : String
  deriving Repr, DecidableEq

/-- Go `GUID` (the `<guid isPermaLink=...>` element). -/
structure GUID where
  IsPermaLink : String
  Value : String
  deriving Repr, DecidableEq

/-- Go `Enclosure`; the Go field `Type` is `type_` here. -/
structure Enclosure where
  URL : String
  Length : String
  type_ : String
  deriving Repr, DecidableEq

/-- Go `Item`. -/
structure Item where
  Title : String
  Description : String
  PubDate : String
  GUID : GUID
  Enclosure : Enclosure
  ITunesDuration : String
  deriving Repr, DecidableEq

/-- Go `Channel`. -/
structure Channel where
  Title : String
  Description : String
  ITunesAuthor : String
  ITunesImage : Image
  Items : List Item
  deriving Repr, DecidableEq

/-- Go `RSSFeed`. -/
structure RSSFeed where
  Version : String
  Xmlns : String
  Channel : Channel
  deriving Repr, DecidableEq

/-- `formatDuration` (`part_000` lines 48–57): Go integer division and
remainder truncate toward zero (`Int.tdiv` / `Int.tmod`), `%02d` zero-pads
to width two. -/
def formatDuration (seconds : Int) : String :=
  let hours := Int.tdiv seconds 3600
  let minutes := Int.tdiv (Int.tmod seconds 3600) 60
  let secs := Int.tmod seconds 60
  if 0 < hours then
    toString hours ++ ":" ++ goPad2 minutes ++ ":" ++ goPad2 secs
  else
    toString minutes ++ ":" ++ goPad2 secs

/-- Body of the episode loop of `generateRSSFeed` (`part_000` lines 72–89):
the item built for one episode, with `time.Now()` as the explicit `now`. -/
def itemOfEpisode (now : GoTime) (episode : Episode) : Item :=
  let episodePubDate :=
    match parseRFC3339 episode.PublicationDate with
    | some t => t
    | none => now
  { Title := episode.Title
    Description := episode.Description
    PubDate := formatRFC1123Z episodePubDate
    GUID := { IsPermaLink := "false", Value := episode.GUID }
    Enclosure := { URL := episode.AudioURL
                   Length := toString episode.AudioLength
                   type_ := "audio/mpeg" }
    ITunesDuration := formatDuration episode.AudioDuration }

/-- The append of `generateRSSFeed`'s episode loop (`part_000` line 91):
one more item at the end of the channel's item list. -/
def appendItem (now : GoTime) (f : RSSFeed) (episode : Episode) : RSSFeed :=
  { f with Channel :=
      { f.Channel with Items := f.Channel.Items ++ [itemOfEpisode now episode] } }

/-- `generateRSSFeed` (`part_000` lines 59–100): builds the channel, appends
one item per episode in order, and returns the document (see the note above
on `xml.MarshalIndent`). -/
def generateRSSFeed (seriesData : SeriesData) (now : GoTime) : Except String RSSFeed :=
  let feed : RSSFeed :=
    { Version := "2.0"
      Xmlns := "http://www.itunes.com/dtds/podcast-1.0.dtd"
      Channel := { Title := seriesData.Title
                   Description := seriesData.Description
                   ITunesAuthor := seriesData.Author
                   ITunesImage := { Href := seriesData.CoverURL }
                   Items := [] } }
  let feed := seriesData.Episodes.foldl (appendItem now) feed
  Except.ok feed

/-- The string-max variant of `getLatestEpisodeDate` (`part_002` lines
121–141): lexicographic maximum of the raw date strings, formatted when it
parses, returned raw otherwise. Go's `>` on strings is bytewise
lexicographic comparison of the UTF-8 encodings, which is the lexicographic
code-point order on the character lists, so `episode.PublicationDate >
latestDate` is embedded as `latestDate.data < episode.PublicationDate.data`. -/
def getLatestEpisodeDateStringMax (episodes : List Episode) : Except String String :=
  match episodes with
  | [] => Except.error "no episodes found"
  | e :: rest =>
    let latestDate := rest.foldl
      (fun latest episode =>
        if latest.data < episode.PublicationDate.data then episode.PublicationDate else latest)
      e.PublicationDate
    match parseRFC3339 latestDate with
    | none => Except.ok latestDate
    | some parsedTime => Except.ok (formatJan2 parsedTime)

/-- Loop body of the defensive `getLatestEpisodeDate` (`part_002` lines
273–288): the accumulator is Go's `(latestDate, latestTime)` pair, with the
zero `time.Time` modelled by an arbitrary `GoTime` (it is never compared
before `latestDate` is set, and `latestDate = ""` marks the unset state). -/
def latestStep (oneWeekFromNow : GoTime) (acc : String × GoTime) (episode : Episode) :
    String × GoTime :=
  match parseRFC3339 episode.PublicationDate with
  | none => acc
  | some episodeTime =>
    if episodeTime.after oneWeekFromNow then acc
    else if acc.1 = "" ∨ episodeTime.after acc.2 then
      (episode.PublicationDate, episodeTime)
    else acc

/-- The defensive `getLatestEpisodeDate` (`part_002` lines 262–295), with
`time.Now()` as the explicit `now`. -/
def getLatestEpisodeDate (episodes : List Episode) (now : GoTime) : Except String String :=
  if episodes.length = 0 then Except.error "no episodes found"
  else
    let oneWeekFromNow := now.add 604800
    let acc := episodes.foldl (latestStep oneWeekFromNow) ("", { sec := 0, nsec := 0, offset := 0 })
    if acc.1 = "" then Except.error "no valid episodes found"
    else Except.ok (formatJan2 acc.2)

/-- `parseS3Path`'s `strings.SplitN(path, "/", 2)` step: `none` when the
string has no `/` (Go's one-element split), otherwise the parts before and
after the first `/`. -/
def splitFirstSlash : List Char → Option (List Char × List Char)
  | [] => none
  | c :: rest =>
    if c = '/' then some ([], rest)
    else (splitFirstSlash rest).map (fun p => (c :: p.1, p.2))

/-- `parseS3Path` (`src/s3.go` lines 51–63). `strings.HasPrefix(s, "s3://")`
and `strings.TrimPrefix(s, "s3://")` are modelled together by matching the
five characters of the scheme (all ASCII, so Go's bytewise prefix test
agrees with the character-level one). -/
def parseS3Path (s3Path : String) : Except String (String × String) :=
  match s3Path.data with
  | 's' :: '3' :: ':' :: '/' :: '/' :: path =>
    match splitFirstSlash path with
    | none => Except.error "invalid S3 path: must be in format s3://bucket/key"
    | some (bucket, key) => Except.ok (String.mk bucket, String.mk key)
  | _ => Except.error "invalid S3 path: must start with s3://"

/-!
Specification-side vocabulary used by the theorem statements: which episodes
the defensive selector keeps, and the running maximum over kept parse
results. These are statement devices, not re-implementations: the theorems
below relate `getLatestEpisodeDate` to them.
-/

/-- The parsed time of an episode the defensive selector keeps: its date
parses, and the parsed time is not more than seven days after `now`. -/
def validTime (now : GoTime) (e : Episode) : Option GoTime :=
  match parseRFC3339 e.PublicationDate with
  | none => none
  | some t => if t.after (now.add 604800) then none else some t

/-- The kept parse results of an episode list, in input order. -/
def validParses (episodes : List Episode) (now : GoTime) : List GoTime :=
  episodes.filterMap (validTime now)

/-- Running maximum by instant, keeping the earlier entry on ties. -/
def pickLater (acc : Option GoTime) (t : GoTime) : Option GoTime :=
  match acc with
  | none => some t
  | some a => if t.after a then some t else some a

/-- Reading of the defensive selector's accumulator: `latestDate = ""` is
the unset state, otherwise the pair holds a kept parse result. -/
def stateToOpt (s : String × GoTime) : Option GoTime :=
  if s.1 = "" then none else some s.2

/-- Zero-padding of a natural number to two digits, the spec's rendering of
the sub-leading duration components. -/
def padTwo (n : Nat) : String :=
  if n < 10 then "0" ++ toString n else toString n

/-!
Concrete fixtures for witnesses and counterexamples.
-/

/-- An episode whose only distinguishing datum is its publication date. -/
def sampleEpisode (pubDate : String) : Episode :=
  { SourceType := "article", GUID := "ep-guid", SeriesTitle := "Series", SeriesGUID := "se-guid",
    Author := "Author", PhotoAuthor := "", OriginalArticleURL := "", Title := "Episode",
    Description := "About the episode", HTMLDescription := none, PublicationDate := pubDate,
    RSSGUID := "rss-guid", AudioURL := "https://cdn.example/audio.mp3", AudioDuration := 125,
    AudioLength := 4096, AudioSample := { AudioURL := "", AudioDuration := 0, AudioLength := 0 },
    AudioPkgs := [], LastModified := "", AudioSlices := [], SeriesTags := [], Tags := [],
    AvailabilityPeriods := [], Rankings := { Daily := 0, Weekly := 0, Monthly := 0 },
    AnalyticsData := none, AdTags := none, CoverURL := "", SquareCoverURL := none,
    SquarePhotoAuthor := none, H := none, Kind := "podcast" }

/-- A series with the given episodes. -/
def sampleSeries (episodes : List Episode) : SeriesData :=
  { GUID := "series-guid", LastModified := "", RSSFeedURL := "", Title := "My Podcast",
    Author := "Author", Description := "About the series", HTMLDescription := none,
    Link := "", PublicationDate := "", Copyright := "", Publisher := "", Tags := [],
    Categories := [], Episodes := episodes,
    Rankings := { Daily := 0, Weekly := 0, Monthly := 0 },
    CoverURL := "https://cdn.example/cover.jpg" }

/-- 2024-03-20T00:00:00Z: a wall-clock instant after mid-March 2024. -/
def nowMarch2024 : GoTime := { sec := 1710892800, nsec := 0, offset := 0 }

/-- The Unix epoch as a wall-clock instant. -/
def nowEpoch : GoTime := { sec := 0, nsec := 0, offset := 0 }

/-- One day after the Unix epoch. -/
def nowEpochPlusDay : GoTime := { sec := 86400, nsec := 0, offset := 0 }

/-- The spec's worked example: one past date, one later past date, one
malformed date. -/
def exampleEpisodes : List Episode :=
  [sampleEpisode "2024-01-01T00:00:00Z", sampleEpisode "2024-03-15T00:00:00Z",
   sampleEpisode "invalid"]

/-- Episodes whose raw-string maximum is a far-future date. -/
def futureEpisodes : List Episode :=
  [sampleEpisode "2030-01-01T00:00:00Z", sampleEpisode "2024-01-01T00:00:00Z"]

/-- Episodes whose raw-string maximum is the unparseable string. -/
def mixedEpisodes : List Episode :=
  [sampleEpisode "invalid", sampleEpisode "2024-01-01T00:00:00Z"]

/-- A series holding one episode with an unparseable date. -/
def seriesWithInvalidDate : SeriesData := sampleSeries [sampleEpisode "invalid"]

/-- A series holding one episode with a well-formed date. -/
def seriesWithValidDate : SeriesData := sampleSeries [sampleEpisode "2024-01-01T00:00:00Z"]

/-!
Helper lemmas.
-/

/-- No instant is after itself. -/
theorem GoTime.after_irrefl (t : GoTime) : t.after t = false := by
  simp [GoTime.after]

/-- `after = false` is transitive (it is the lax order on instants). -/
theorem GoTime.after_false_trans {t u v : GoTime} (h1 : t.after u = false)
    (h2 : u.after v = false) : t.after v = false := by
  simp only [GoTime.after, decide_eq_false_iff_not, not_or, not_and, not_lt] at *
  omega

/-- A strict bound composes with a lax bound. -/
theorem GoTime.after_false_of_after {t u v : GoTime} (h1 : t.after u = true)
    (h2 : t.after v = false) : u.after v = false := by
  simp only [GoTime.after, decide_eq_true_eq, decide_eq_false_iff_not, not_or, not_and,
    not_lt] at *
  omega

/-- A string that parses as RFC 3339 is nonempty (the grammar needs at least
twenty characters). -/
theorem parseRFC3339_ne_empty {s : String} {t : GoTime} (h : parseRFC3339 s = some t) :
    ¬s = "" := by
  intro he
  subst he
  exact Option.noConfusion ((rfl : parseRFC3339 "" = none) ▸ h)

/-- The defensive selector's loop, read through `stateToOpt`, is the running
maximum `pickLater` over the kept parse results. -/
theorem foldl_latestStep_coupling (now : GoTime) (l : List Episode) (s : String × GoTime) :
    stateToOpt (l.foldl (latestStep (now.add 604800)) s) =
      (validParses l now).foldl pickLater (stateToOpt s) := by
  induction l generalizing s with
  | nil => rfl
  | cons e l ih =>
    rw [validParses, List.filterMap_cons]
    rcases hp : parseRFC3339 e.PublicationDate with _ | t
    · have hv : validTime now e = none := by simp [validTime, hp]
      have hstep : latestStep (now.add 604800) s e = s := by simp [latestStep, hp]
      rw [List.foldl_cons, hstep, hv, ih, validParses]
    · rcases haft : t.after (now.add 604800) with _ | _
      · have hv : validTime now e = some t := by simp [validTime, hp, haft]
        have hne : ¬e.PublicationDate = "" := parseRFC3339_ne_empty hp
        rw [List.foldl_cons, hv, List.foldl_cons, ih]
        congr 1
        by_cases hs : s.1 = ""
        · simp [latestStep, hp, haft, hs, stateToOpt, pickLater, hne]
        · rcases hat : t.after s.2 with _ | _
          · simp [latestStep, hp, haft, hs, hat, stateToOpt, pickLater]
          · simp [latestStep, hp, haft, hs, hat, stateToOpt, pickLater, hne]
      · have hv : validTime now e = none := by simp [validTime, hp, haft]
        have hstep : latestStep (now.add 604800) s e = s := by simp [latestStep, hp, haft]
        rw [List.foldl_cons, hstep, hv, ih, validParses]

/-- The running maximum started at `a` lands on a member that nothing in the
list (nor `a`) is strictly after. -/
theorem foldl_pickLater_some (l : List GoTime) (a : GoTime) :
    ∃ b, l.foldl pickLater (some a) = some b ∧ (b = a ∨ b ∈ l) ∧
      a.after b = false ∧ ∀ u ∈ l, u.after b = false := by
  induction l generalizing a with
  | nil => exact ⟨a, rfl, Or.inl rfl, GoTime.after_irrefl a, by simp⟩
  | cons t l ih =>
    rcases h : t.after a with _ | _
    · obtain ⟨b, hfold, hmem, hle, hall⟩ := ih a
      refine ⟨b, ?_, ?_, hle, ?_⟩
      · simpa [pickLater, h] using hfold
      · rcases hmem with hba | hbl
        · exact Or.inl hba
        · exact Or.inr (List.mem_cons_of_mem t hbl)
      · intro u hu
        rcases List.mem_cons.mp hu with hu | hu
        · exact hu ▸ GoTime.after_false_trans h hle
        · exact hall u hu
    · obtain ⟨b, hfold, hmem, hle, hall⟩ := ih t
      refine ⟨b, ?_, ?_, GoTime.after_false_of_after h hle, ?_⟩
      · simpa [pickLater, h] using hfold
      · rcases hmem with hbt | hbl
        · exact Or.inr (hbt ▸ List.mem_cons_self t l)
        · exact Or.inr (List.mem_cons_of_mem t hbl)
      · intro u hu
        rcases List.mem_cons.mp hu with hu | hu
        · exact hu ▸ hle
        · exact hall u hu

/-- On a nonempty list the running maximum from `none` lands on a member
that nothing in the list is strictly after. -/
theorem foldl_pickLater_of_ne_nil {l : List GoTime} (h : l ≠ []) :
    ∃ b, l.foldl pickLater none = some b ∧ b ∈ l ∧ ∀ u ∈ l, u.after b = false := by
  match l, h with
  | t :: l, _ =>
    obtain ⟨b, hfold, hmem, hle, hall⟩ := foldl_pickLater_some l t
    refine ⟨b, by simpa [pickLater] using hfold, ?_, ?_⟩
    · rcases hmem with hbt | hbl
      · exact hbt ▸ List.mem_cons_self t l
      · exact List.mem_cons_of_mem t hbl
    · intro u hu
      rcases List.mem_cons.mp hu with hu | hu
      · exact hu ▸ hle
      · exact hall u hu

/-- The running maximum from `none` is `none` exactly on the empty list. -/
theorem foldl_pickLater_eq_none_iff (l : List GoTime) :
    l.foldl pickLater none = none ↔ l = [] := by
  constructor
  · intro h
    by_contra hne
    obtain ⟨b, hfold, -, -⟩ := foldl_pickLater_of_ne_nil hne
    rw [h] at hfold
    exact Option.noConfusion hfold
  · intro h
    subst h
    rfl

/-- On a nonempty list, the defensive selector answers according to the
running maximum over the kept parse results. -/
theorem getLatestEpisodeDate_eq_spec (episodes : List Episode) (now : GoTime)
    (h : episodes ≠ []) :
    getLatestEpisodeDate episodes now =
      match (validParses episodes now).foldl pickLater none with
      | none => Except.error "no valid episodes found"
      | some t => Except.ok (formatJan2 t) := by
  have hlen : ¬episodes.length = 0 := by
    simpa [List.length_eq_zero] using h
  have hc := foldl_latestStep_coupling now episodes ("", { sec := 0, nsec := 0, offset := 0 })
  have hinit : stateToOpt ("", { sec := 0, nsec := 0, offset := 0 }) = none := rfl
  rw [hinit] at hc
  unfold getLatestEpisodeDate
  rw [if_neg hlen]
  rcases hf : (validParses episodes now).foldl pickLater none with _ | t
  · rw [hf] at hc
    have : (episodes.foldl (latestStep (now.add 604800))
        ("", { sec := 0, nsec := 0, offset := 0 })).1 = "" := by
      by_contra hne
      simp [stateToOpt, hne] at hc
    simp [this]
  · rw [hf] at hc
    have h1 : ¬(episodes.foldl (latestStep (now.add 604800))
        ("", { sec := 0, nsec := 0, offset := 0 })).1 = "" := by
      intro he
      simp [stateToOpt, he] at hc
    have h2 : (episodes.foldl (latestStep (now.add 604800))
        ("", { sec := 0, nsec := 0, offset := 0 })).2 = t := by
      simpa [stateToOpt, h1] using hc
    simp [h1, h2]

/-- Folding `appendItem` appends one item per episode, in order. -/
theorem appendItem_foldl (now : GoTime) (l : List Episode) (f : RSSFeed) :
    l.foldl (appendItem now) f =
      { f with Channel :=
          { f.Channel with Items := f.Channel.Items ++ l.map (itemOfEpisode now) } } := by
  induction l generalizing f with
  | nil => simp
  | cons e l ih =>
    rw [List.foldl_cons, ih]
    simp [appendItem, List.append_assoc]

/-- `generateRSSFeed` in closed form: the fixed envelope around one item per
episode, in input order. -/
theorem generateRSSFeed_eq (seriesData : SeriesData) (now : GoTime) :
    generateRSSFeed seriesData now = Except.ok
      { Version := "2.0"
        Xmlns := "http://www.itunes.com/dtds/podcast-1.0.dtd"
        Channel := { Title := seriesData.Title
                     Description := seriesData.Description
                     ITunesAuthor := seriesData.Author
                     ITunesImage := { Href := seriesData.CoverURL }
                     Items := seriesData.Episodes.map (itemOfEpisode now) } } := by
  simp only [generateRSSFeed]
  rw [appendItem_foldl]
  simp

/-- The raw-string running maximum lands on a member at least as large as
every raw date (the order is the one Go's string `>` induces). -/
theorem foldl_strMax (l : List String) (a : String) :
    ∃ m, l.foldl (fun latest d => if latest.data < d.data then d else latest) a = m ∧
      (m = a ∨ m ∈ l) ∧ a.data ≤ m.data ∧ ∀ d ∈ l, d.data ≤ m.data := by
  induction l generalizing a with
  | nil => exact ⟨a, rfl, Or.inl rfl, le_refl a.data, by simp⟩
  | cons x l ih =>
    by_cases h : a.data < x.data
    · obtain ⟨m, hfold, hmem, hle, hall⟩ := ih x
      refine ⟨m, by rw [List.foldl_cons, if_pos h]; exact hfold, ?_,
        le_trans (le_of_lt h) hle, ?_⟩
      · rcases hmem with hmx | hml
        · exact Or.inr (hmx ▸ List.mem_cons_self x l)
        · exact Or.inr (List.mem_cons_of_mem x hml)
      · intro d hd
        rcases List.mem_cons.mp hd with hd | hd
        · exact hd ▸ hle
        · exact hall d hd
    · obtain ⟨m, hfold, hmem, hle, hall⟩ := ih a
      refine ⟨m, by rw [List.foldl_cons, if_neg h]; exact hfold, ?_, hle, ?_⟩
      · rcases hmem with hma | hml
        · exact Or.inl hma
        · exact Or.inr (List.mem_cons_of_mem x hml)
      · intro d hd
        rcases List.mem_cons.mp hd with hd | hd
        · exact hd ▸ le_trans (le_of_not_lt h) hle
        · exact hall d hd

/-- `splitFirstSlash` fails exactly on slash-free strings. -/
theorem splitFirstSlash_eq_none_iff (cs : List Char) :
    splitFirstSlash cs = none ↔ '/' ∉ cs := by
  induction cs with
  | nil => simp [splitFirstSlash]
  | cons c rest ih =>
    by_cases hc : c = '/'
    · subst hc
      simp [splitFirstSlash]
    · rcases hr : splitFirstSlash rest with _ | p
      · simp [splitFirstSlash, hc, hr, ih.mp hr, Ne.symm hc]
      · have : '/' ∈ rest := by
          by_contra hmem
          rw [ih.mpr hmem] at hr
          exact Option.noConfusion hr
        simp [splitFirstSlash, hc, hr, this]

/-- A successful `splitFirstSlash` is the split at the first slash: the
parts rebuild the input and the first part is slash-free. -/
theorem splitFirstSlash_eq_some {cs a b : List Char}
    (h : splitFirstSlash cs = some (a, b)) :
    cs = a ++ '/' :: b ∧ '/' ∉ a := by
  induction cs generalizing a b with
  | nil => exact Option.noConfusion h
  | cons c rest ih =>
    by_cases hc : c = '/'
    · subst hc
      rw [splitFirstSlash, if_pos rfl] at h
      injection h with h'
      injection h' with h1 h2
      subst h1; subst h2
      simp
    · rcases hr : splitFirstSlash rest with _ | ⟨p1, p2⟩
      · rw [splitFirstSlash, if_neg hc, hr] at h
        exact Option.noConfusion h
      · rw [splitFirstSlash, if_neg hc, hr, Option.map_some'] at h
        injection h with h'
        injection h' with h1 h2
        subst h1; subst h2
        obtain ⟨h1, h2⟩ := ih hr
        subst h1
        refine ⟨by simp, ?_⟩
        intro hmem
        rcases List.mem_cons.mp hmem with h' | h'
        · exact hc h'.symm
        · exact h2 h'

/-!
Claim theorems.
-/

/-- C1: for every episode list, the defensive `getLatestEpisodeDate` parses
each publication date as strict ISO-8601 and skips parse failures, excludes
parses more than seven days after the wall clock (both captured by
`validTime`/`validParses`), and, when the list and the kept parses are
nonempty, returns the maximum kept parse — a kept parse that no kept parse
is strictly after — formatted with the `Jan 2, 2006` pattern. -/
theorem getLatestEpisodeDate_selects_latest (episodes : List Episode) (now : GoTime)
    (hne : episodes ≠ []) (hval : validParses episodes now ≠ []) :
    ∃ t, t ∈ validParses episodes now ∧
      (∀ u ∈ validParses episodes now, u.after t = false) ∧
      getLatestEpisodeDate episodes now = Except.ok (formatJan2 t) := by
  obtain ⟨b, hfold, hmem, hall⟩ := foldl_pickLater_of_ne_nil hval
  refine ⟨b, hmem, hall, ?_⟩
  rw [getLatestEpisodeDate_eq_spec episodes now hne, hfold]

/-- C1 witness: the spec's worked example `["2024-01-01T00:00:00Z",
"2024-03-15T00:00:00Z", "invalid"]` with the wall clock at 2024-03-20
answers `"Mar 15, 2024"`. -/
theorem getLatestEpisodeDate_selects_latest_witness :
    (∃ t, t ∈ validParses exampleEpisodes nowMarch2024 ∧
        (∀ u ∈ validParses exampleEpisodes nowMarch2024, u.after t = false) ∧
        getLatestEpisodeDate exampleEpisodes nowMarch2024 = Except.ok (formatJan2 t)) ∧
      getLatestEpisodeDate exampleEpisodes nowMarch2024 = Except.ok "Mar 15, 2024" :=
  ⟨getLatestEpisodeDate_selects_latest exampleEpisodes nowMarch2024 (by decide) (by decide),
   by decide⟩

/-- C2: the defensive `getLatestEpisodeDate` returns the error
"no episodes found" exactly on the empty list, returns the error
"no valid episodes found" exactly when the list is nonempty but every
episode is dropped by the parse failure or the more-than-seven-days-ahead
guard (`validTime now e = none`), and succeeds in every other case. -/
theorem getLatestEpisodeDate_error_cases (episodes : List Episode) (now : GoTime) :
    (getLatestEpisodeDate episodes now = Except.error "no episodes found" ↔
      episodes = []) ∧
    (getLatestEpisodeDate episodes now = Except.error "no valid episodes found" ↔
      episodes ≠ [] ∧ ∀ e ∈ episodes, validTime now e = none) ∧
    (episodes ≠ [] → ¬(∀ e ∈ episodes, validTime now e = none) →
      ∃ s, getLatestEpisodeDate episodes now = Except.ok s) := by
  by_cases hne : episodes = []
  · subst hne
    have h0 : getLatestEpisodeDate [] now = Except.error "no episodes found" := rfl
    refine ⟨by simp [h0], ?_, by simp⟩
    rw [h0]
    constructor
    · intro h
      injection h with h'
      exact absurd h' (by decide)
    · rintro ⟨h, -⟩
      exact absurd rfl h
  · have hch := getLatestEpisodeDate_eq_spec episodes now hne
    rcases hf : (validParses episodes now).foldl pickLater none with _ | t
    · have hvnil : episodes.filterMap (validTime now) = [] :=
        (foldl_pickLater_eq_none_iff _).mp hf
      have hres : getLatestEpisodeDate episodes now =
          Except.error "no valid episodes found" := by
        rw [hch, hf]
      refine ⟨?_, ?_, ?_⟩
      · rw [hres]
        constructor
        · intro h
          injection h with h'
          exact absurd h' (by decide)
        · intro h
          exact absurd h hne
      · rw [hres]
        exact ⟨fun _ => ⟨hne, List.filterMap_eq_nil_iff.mp hvnil⟩, fun _ => rfl⟩
      · intro _ hnall
        exact absurd (List.filterMap_eq_nil_iff.mp hvnil) hnall
    · have hvne : validParses episodes now ≠ [] := by
        intro h
        rw [(foldl_pickLater_eq_none_iff _).mpr h] at hf
        exact Option.noConfusion hf
      have hres : getLatestEpisodeDate episodes now = Except.ok (formatJan2 t) := by
        rw [hch, hf]
      refine ⟨?_, ?_, fun _ _ => ⟨formatJan2 t, hres⟩⟩
      · rw [hres]
        exact ⟨fun h => Except.noConfusion h, fun h => absurd h hne⟩
      · rw [hres]
        refine ⟨fun h => Except.noConfusion h, ?_⟩
        rintro ⟨-, hall⟩
        exact absurd (List.filterMap_eq_nil_iff.mpr hall) hvne

/-- C8: the two latest-episode-date policies disagree: on a list whose
entries are out of order and whose first date is far in the future, the
string-max variant answers from the raw future date while the defensive
variant (wall clock at 2024-03-20) filters it out, so the two functions are
not extensionally equal. -/
theorem latestPolicies_disagree :
    getLatestEpisodeDateStringMax futureEpisodes ≠
      getLatestEpisodeDate futureEpisodes nowMarch2024 := by decide

/-- C10: on a nonempty list the string-max variant never errors: it takes
the lexicographic maximum of the raw publication-date strings and answers
with it formatted when it parses, or with the raw string itself (no error)
when it does not. -/
theorem stringMax_total_on_nonempty (episodes : List Episode) (h : episodes ≠ []) :
    ∃ m, m ∈ episodes.map Episode.PublicationDate ∧
      (∀ d ∈ episodes.map Episode.PublicationDate, d ≤ m) ∧
      getLatestEpisodeDateStringMax episodes =
        Except.ok (match parseRFC3339 m with
          | none => m
          | some parsedTime => formatJan2 parsedTime) := by
  match episodes, h with
  | e :: rest, _ =>
    obtain ⟨m, hfold, hmem, hle, hall⟩ :=
      foldl_strMax (rest.map Episode.PublicationDate) e.PublicationDate
    have hlatest : rest.foldl
        (fun latest episode =>
          if latest.data < episode.PublicationDate.data then episode.PublicationDate
          else latest)
        e.PublicationDate = m := by
      rw [← hfold, List.foldl_map]
    refine ⟨m, ?_, ?_, ?_⟩
    · rw [List.map_cons]
      rcases hmem with hme | hml
      · exact hme ▸ List.mem_cons_self _ _
      · exact List.mem_cons_of_mem _ hml
    · intro d hd
      rw [List.map_cons] at hd
      rcases List.mem_cons.mp hd with hd | hd
      · exact String.le_iff_toList_le.mpr (hd ▸ hle)
      · exact String.le_iff_toList_le.mpr (hall d hd)
    · simp only [getLatestEpisodeDateStringMax]
      rw [hlatest]
      cases parseRFC3339 m <;> rfl

/-- C10 witness: on `["invalid", "2024-01-01T00:00:00Z"]` the raw maximum is
the unparseable string `"invalid"`, which is returned raw with no error. -/
theorem stringMax_total_on_nonempty_witness :
    (∃ m, m ∈ mixedEpisodes.map Episode.PublicationDate ∧
        (∀ d ∈ mixedEpisodes.map Episode.PublicationDate, d ≤ m) ∧
        getLatestEpisodeDateStringMax mixedEpisodes =
          Except.ok (match parseRFC3339 m with
            | none => m
            | some parsedTime => formatJan2 parsedTime)) ∧
      getLatestEpisodeDateStringMax mixedEpisodes = Except.ok "invalid" :=
  ⟨stringMax_total_on_nonempty mixedEpisodes (by decide), by decide⟩

/-- Casting a natural through the embedding of Go `int` keeps its decimal
rendering. -/
theorem toString_natCast_int (n : Nat) : toString (n : Int) = toString n := rfl

/-- On naturals, Go's `%02d` is the plain two-digit zero padding. -/
theorem goPad2_natCast (n : Nat) : goPad2 (n : Int) = padTwo n := by
  by_cases hn : n < 10
  · rw [goPad2, padTwo, if_pos ⟨Int.natCast_nonneg n, by exact_mod_cast hn⟩, if_pos hn,
      toString_natCast_int]
  · rw [goPad2, padTwo, if_neg ?_, if_neg hn, toString_natCast_int]
    rintro ⟨-, h⟩
    exact hn (by exact_mod_cast h)

/-- C3: for every non-negative count of seconds, `formatDuration` renders
`H:MM:SS` (hours unpadded, minutes and seconds zero-padded to two digits)
when an hour or more is present, else `M:SS` (minutes unpadded, seconds
zero-padded), computing hours, minutes and seconds by division and
remainder; and it matches the spec's worked examples. -/
theorem formatDuration_spec :
    (∀ s : Nat, formatDuration (s : Int) =
        if 3600 ≤ s then
          toString (s / 3600) ++ ":" ++ padTwo (s % 3600 / 60) ++ ":" ++ padTwo (s % 60)
        else toString (s / 60) ++ ":" ++ padTwo (s % 60)) ∧
      formatDuration 45 = "0:45" ∧ formatDuration 125 = "2:05" ∧
      formatDuration 3725 = "1:02:05" ∧ formatDuration 36000 = "10:00:00" ∧
      formatDuration 0 = "0:00" := by
  refine ⟨?_, by decide, by decide, by decide, by decide, by decide⟩
  intro s
  have hdiv : Int.tdiv (s : Int) 3600 = ((s / 3600 : Nat) : Int) := rfl
  have hmod : Int.tmod (s : Int) 3600 = ((s % 3600 : Nat) : Int) := rfl
  have hdiv60 : Int.tdiv ((s % 3600 : Nat) : Int) 60 = ((s % 3600 / 60 : Nat) : Int) := rfl
  have hmod60 : Int.tmod (s : Int) 60 = ((s % 60 : Nat) : Int) := rfl
  simp only [formatDuration, hdiv, hmod, hdiv60, hmod60]
  by_cases h : 3600 ≤ s
  · rw [if_pos (by exact_mod_cast Nat.lt_of_lt_of_le (by omega) (Nat.le_refl _) : (0 : Int) < ((s / 3600 : Nat) : Int)), if_pos h,
      toString_natCast_int, goPad2_natCast, goPad2_natCast]
  · have hz : s / 3600 = 0 := by omega
    have hsm : s % 3600 = s := by omega
    rw [if_neg (by rw [hz]; exact lt_irrefl 0), if_neg h, hsm, toString_natCast_int,
      goPad2_natCast]

/-- C4: if an episode's publication date fails the strict RFC 3339 parse,
`generateRSSFeed` still succeeds, keeps one item per episode (drops none),
and that episode's item carries the generation wall-clock time, RFC 1123
formatted, as its `pubDate`. -/
theorem generateRSSFeed_bad_date_fallback (sd : SeriesData) (now : GoTime) (i : Nat)
    (h : i < sd.Episodes.length)
    (hbad : parseRFC3339 sd.Episodes[i].PublicationDate = none) :
    ∃ feed, generateRSSFeed sd now = Except.ok feed ∧
      feed.Channel.Items.length = sd.Episodes.length ∧
      ∃ item, feed.Channel.Items[i]? = some item ∧
        item.PubDate = formatRFC1123Z now := by
  refine ⟨_, generateRSSFeed_eq sd now, by simp, itemOfEpisode now sd.Episodes[i], ?_, ?_⟩
  · simp [List.getElem?_eq_getElem h]
  · simp [itemOfEpisode, hbad]

/-- C4 witness: a one-episode series whose date is `"invalid"`; generation
at the epoch succeeds and the item's `pubDate` is the formatted epoch. -/
theorem generateRSSFeed_bad_date_fallback_witness :
    ∃ feed, generateRSSFeed seriesWithInvalidDate nowEpoch = Except.ok feed ∧
      feed.Channel.Items.length = seriesWithInvalidDate.Episodes.length ∧
      ∃ item, feed.Channel.Items[0]? = some item ∧
        item.PubDate = formatRFC1123Z nowEpoch :=
  generateRSSFeed_bad_date_fallback seriesWithInvalidDate nowEpoch 0 (by decide) (by decide)

/-- C5: the document `generateRSSFeed` produces carries exactly one item
per episode, in input order (the item list is the map of the per-episode
item builder over the episode list). -/
theorem generateRSSFeed_one_item_per_episode (sd : SeriesData) (now : GoTime) :
    ∃ feed, generateRSSFeed sd now = Except.ok feed ∧
      feed.Channel.Items.length = sd.Episodes.length ∧
      feed.Channel.Items = sd.Episodes.map (itemOfEpisode now) :=
  ⟨_, generateRSSFeed_eq sd now, by simp, rfl⟩

/-- C6: the item emitted for each episode carries the episode's title and
description, the RFC 1123 (numeric zone) rendering of its parsed date (or
of the wall clock when the parse fails), a non-permalink `guid` holding the
episode's GUID, an enclosure with the episode's audio URL, MIME type
`"audio/mpeg"` and the plain decimal rendering of the byte length, and the
formatted iTunes duration. -/
theorem generateRSSFeed_item_fields (sd : SeriesData) (now : GoTime) (i : Nat)
    (h : i < sd.Episodes.length) :
    ∃ feed item, generateRSSFeed sd now = Except.ok feed ∧
      feed.Channel.Items[i]? = some item ∧
      item.Title = sd.Episodes[i].Title ∧
      item.Description = sd.Episodes[i].Description ∧
      item.PubDate = formatRFC1123Z
        (match parseRFC3339 sd.Episodes[i].PublicationDate with
          | some t => t
          | none => now) ∧
      item.GUID.IsPermaLink = "false" ∧
      item.GUID.Value = sd.Episodes[i].GUID ∧
      item.Enclosure.URL = sd.Episodes[i].AudioURL ∧
      item.Enclosure.Length = toString sd.Episodes[i].AudioLength ∧
      item.Enclosure.type_ = "audio/mpeg" ∧
      item.ITunesDuration = formatDuration sd.Episodes[i].AudioDuration := by
  refine ⟨_, itemOfEpisode now sd.Episodes[i], generateRSSFeed_eq sd now, ?_,
    rfl, rfl, rfl, rfl, rfl, rfl, rfl, rfl, rfl⟩
  simp [List.getElem?_eq_getElem h]

/-- C6 witness: the first (and only) item of the sample series with a valid
date carries all the claimed fields. -/
theorem generateRSSFeed_item_fields_witness :
    ∃ feed item, generateRSSFeed seriesWithValidDate nowEpoch = Except.ok feed ∧
      feed.Channel.Items[0]? = some item ∧
      item.Title = seriesWithValidDate.Episodes[0].Title ∧
      item.Description = seriesWithValidDate.Episodes[0].Description ∧
      item.PubDate = formatRFC1123Z
        (match parseRFC3339 seriesWithValidDate.Episodes[0].PublicationDate with
          | some t => t
          | none => nowEpoch) ∧
      item.GUID.IsPermaLink = "false" ∧
      item.GUID.Value = seriesWithValidDate.Episodes[0].GUID ∧
      item.Enclosure.URL = seriesWithValidDate.Episodes[0].AudioURL ∧
      item.Enclosure.Length = toString seriesWithValidDate.Episodes[0].AudioLength ∧
      item.Enclosure.type_ = "audio/mpeg" ∧
      item.ITunesDuration = formatDuration seriesWithValidDate.Episodes[0].AudioDuration :=
  generateRSSFeed_item_fields seriesWithValidDate nowEpoch 0 (by decide)

/-- C7 counterexample: `generateRSSFeed` is not a function of the series
alone — on a series holding an episode with an unparseable date, generating
at the epoch and one day later yields different documents (the fallback
`pubDate` embeds the wall clock), so two invocations on the same input can
differ. -/
theorem generateRSSFeed_reads_clock :
    generateRSSFeed seriesWithInvalidDate nowEpoch ≠
      generateRSSFeed seriesWithInvalidDate nowEpochPlusDay := by decide

/-- C7 (amended): when every episode's publication date parses as strict
RFC 3339, `generateRSSFeed` never consults the wall clock: any two
invocations on the same series yield the same document. -/
theorem generateRSSFeed_deterministic_on_valid_dates (sd : SeriesData) (now now' : GoTime)
    (h : ∀ e ∈ sd.Episodes, (parseRFC3339 e.PublicationDate).isSome = true) :
    generateRSSFeed sd now = generateRSSFeed sd now' := by
  rw [generateRSSFeed_eq, generateRSSFeed_eq]
  have hmap : sd.Episodes.map (itemOfEpisode now) = sd.Episodes.map (itemOfEpisode now') := by
    refine List.map_congr_left ?_
    intro e he
    rcases hp : parseRFC3339 e.PublicationDate with _ | t
    · have hc := h e he
      rw [hp] at hc
      exact absurd hc (by simp)
    · simp [itemOfEpisode, hp]
  rw [hmap]

/-- C7 witness: on a series whose only episode has a well-formed date,
generation at the epoch and one day later agree. -/
theorem generateRSSFeed_deterministic_on_valid_dates_witness :
    generateRSSFeed seriesWithValidDate nowEpoch =
      generateRSSFeed seriesWithValidDate nowEpochPlusDay :=
  generateRSSFeed_deterministic_on_valid_dates seriesWithValidDate nowEpoch nowEpochPlusDay
    (by decide)

/-- `parseS3Path` on a string carrying the scheme: the answer is decided by
the split of the remainder at its first slash. -/
theorem parseS3Path_eq_of_data {s : String} {rest : List Char}
    (hr : s.data = 's' :: '3' :: ':' :: '/' :: '/' :: rest) :
    parseS3Path s =
      match splitFirstSlash rest with
      | none => Except.error "invalid S3 path: must be in format s3://bucket/key"
      | some (bucket, key) => Except.ok (String.mk bucket, String.mk key) := by
  unfold parseS3Path
  rw [hr]
  rfl

/-- `parseS3Path` on a string not carrying the scheme: the scheme error. -/
theorem parseS3Path_eq_error_of_no_scheme {s : String}
    (h : ∀ rest : List Char, s.data ≠ 's' :: '3' :: ':' :: '/' :: '/' :: rest) :
    parseS3Path s = Except.error "invalid S3 path: must start with s3://" := by
  unfold parseS3Path
  split
  · rename_i rest heq
    exact absurd heq (h rest)
  · rfl

/-- C9: `parseS3Path` succeeds exactly when the path starts with the scheme
`s3://` and the remainder holds a `/`; on success it splits the remainder at
its first `/` into bucket (slash-free) and key, whose concatenation rebuilds
the input — so a remainder with no separator (no key) is an error. -/
theorem parseS3Path_spec (s : String) :
    ((parseS3Path s).isOk = true ↔
      ∃ rest, s.data = "s3://".data ++ rest ∧ '/' ∈ rest) ∧
    ∀ bucket key, parseS3Path s = Except.ok (bucket, key) →
      s.data = "s3://".data ++ bucket.data ++ '/' :: key.data ∧ '/' ∉ bucket.data := by
  by_cases hpre : ∃ rest : List Char, s.data = 's' :: '3' :: ':' :: '/' :: '/' :: rest
  · obtain ⟨rest, hr⟩ := hpre
    have hred := parseS3Path_eq_of_data hr
    rcases hsp : splitFirstSlash rest with _ | ⟨b, k⟩
    · rw [hsp] at hred
      have hnos : '/' ∉ rest := (splitFirstSlash_eq_none_iff rest).mp hsp
      constructor
      · rw [hred]
        simp only [Except.isOk]
        constructor
        · intro hf
          exact Bool.noConfusion hf
        · rintro ⟨rest', hr', hmem⟩
          have : rest' = rest := by
            rw [hr] at hr'
            simpa using hr'.symm
          exact absurd (this ▸ hmem) hnos
      · intro bucket key hok
        rw [hred] at hok
        exact Except.noConfusion hok
    · rw [hsp] at hred
      obtain ⟨hsplit, hnob⟩ := splitFirstSlash_eq_some hsp
      constructor
      · rw [hred]
        simp only [Except.isOk]
        refine ⟨fun _ => ⟨rest, by simpa using hr, ?_⟩, fun _ => rfl⟩
        rw [hsplit]
        simp
      · intro bucket key hok
        rw [hred] at hok
        injection hok with hok'
        injection hok' with hb hk
        subst hb; subst hk
        refine ⟨?_, hnob⟩
        rw [hr, hsplit]
        rfl
  · push_neg at hpre
    have hred := parseS3Path_eq_error_of_no_scheme hpre
    constructor
    · rw [hred]
      simp only [Except.isOk]
      constructor
      · intro hf
        exact Bool.noConfusion hf
      · rintro ⟨rest, hr, -⟩
        exact absurd (by simpa using hr) (hpre rest)
    · intro bucket key hok
      rw [hred] at hok
      exact Except.noConfusion hok
